import Mathlib

/-!
Verification of `conda/trust/signature_verification.py` (class
`_SignatureVerification`): trusted-root chain resolution, key-manager
resolution, the enablement gate and per-artifact signature verification.

The Python code is shallowly embedded: every external effect (directory
listing, file load/store, network fetch, cryptographic verification) is a
field of an explicit environment `Env`, and each method becomes a pure
function of that environment.  Exceptions that the source lets escape are
modelled with `Except`; exception paths the source catches are ordinary
branches.  The potentially unbounded `while` loop of `trusted_root` is
modelled with explicit fuel; theorems carry a hypothesis that the fuel
exceeds the length of the remote chain, which is finite in every claim.
-/

namespace CondaTrust

/-- A root metadata document `{signed: {version: ...}, signatures: [...]}`.
Only the `signed.version` field is interpreted by the code; `payload`
stands for the rest of the document so that distinct documents with the
same version can be told apart. -/
structure RootDoc where
  version : Nat
  payload : Nat
deriving DecidableEq, Repr

/-- A key-manager delegation document; entirely opaque to the code. -/
structure KeyMgrDoc where
  payload : Nat
deriving DecidableEq, Repr

/-- Outcome of `_fetch_channel_signing_data` for a root file
`<v>.root.json`, combined with the outcome of `verify_root` being folded
into `Env.verifyRoot`:
`ok d` = HTTP 2xx with JSON body `d`; `http404` = `HTTPError` with status
404; `httpError` = `HTTPError` with another status; `raised` = any other
exception out of the fetch (e.g. the `ValueError` raised on a non-JSON
2xx body). -/
inductive RootFetch
  | ok (d : RootDoc)
  | http404
  | httpError
  | raised
deriving DecidableEq, Repr

/-- Outcome of `_fetch_channel_signing_data` for `key_mgr.json`:
`ok d` = success with body `d`; `connHttpError` = `ConnectionError` or
`HTTPError` (the recoverable class caught in `key_mgr`); `raised` = any
other exception (e.g. the non-JSON `ValueError`). -/
inductive KeyFetch
  | ok (d : KeyMgrDoc)
  | connHttpError
  | raised
deriving DecidableEq, Repr

/-- The environment: the state of the verification directory and the
behaviour of every external collaborator, fixed for one resolution.

`files` are the names in `context.av_data_dir`; `loadRootFile` is
`load_metadata_from_file` on a name of that directory; `initialTrustRoot`
is the imported constant `INITIAL_TRUST_ROOT` (the embedded bootstrap
root); `fetchRoot v` is the outcome of fetching `<v>.root.json`;
`verifyRoot t u = true` iff `verify_root(t, u)` returns rather than
raising; `fetchKeyMgr` is the outcome of fetching `key_mgr.json`;
`verifyKeyMgrDeleg u r = true` iff `verify_delegation("key_mgr", u, r)`
returns; `diskKeyMgr` is the content of the on-disk `key_mgr.json` cache
(`none` when the file does not exist). -/
structure Env where
  files : List String
  loadRootFile : String → RootDoc
  initialTrustRoot : RootDoc
  fetchRoot : Nat → RootFetch
  verifyRoot : RootDoc → RootDoc → Bool
  fetchKeyMgr : KeyFetch
  verifyKeyMgrDeleg : KeyMgrDoc → RootDoc → Bool
  diskKeyMgr : Option KeyMgrDoc

/-! ## Python `int()` on the filename stem, and the glob pattern -/

/-- Strip leading and trailing whitespace, as `int(str)` does. -/
def stripWs (cs : List Char) : List Char :=
  ((cs.dropWhile Char.isWhitespace).reverse.dropWhile Char.isWhitespace).reverse

/-- After the leading digit of an integer literal: digits, with single
underscores allowed between digits (`1_0` parses, `1_`, `_1`, `1__0` do
not), as CPython's `int()` accepts. -/
def pyDigitsRest : List Char → Bool
  | [] => true
  | '_' :: rest =>
    match rest with
    | c :: rest' => c.isDigit && pyDigitsRest rest'
    | [] => false
  | c :: rest => c.isDigit && pyDigitsRest rest

/-- Numeric value of a digit string, underscores skipped. -/
def digitsVal (cs : List Char) : Nat :=
  (cs.filter (fun c => c != '_')).foldl (fun n c => 10 * n + (c.toNat - '0'.toNat)) 0

/-- Model of CPython `int(s)`: `some v` when the call succeeds with value
`v`, `none` when it raises `ValueError`.  Whitespace is stripped, one
optional sign is allowed, then digits with single interior underscores.
(Non-ASCII decimal digits, which CPython also accepts, are not modelled;
no claim depends on them.) -/
def pyIntVal (s : String) : Option Int :=
  let cs := stripWs s.data
  let sb : Int × List Char :=
    match cs with
    | '+' :: rest => (1, rest)
    | '-' :: rest => (-1, rest)
    | _ => (1, cs)
  match sb.2 with
  | c :: rest =>
    if c.isDigit && pyDigitsRest rest then some (sb.1 * digitsVal (c :: rest)) else none
  | [] => none

/-- Success of `int(basename(path).split(".")[0])`. -/
def pyIntOk (s : String) : Bool :=
  (pyIntVal s).isSome

/-- Model of `basename(path).split(".")[0]`: the part of the name before the first
dot (the whole name when it has no dot). -/
def stemBeforeDot (s : String) : String :=
  ⟨s.data.takeWhile (fun c => c != '.')⟩

/-- The literal tail of the glob pattern `[0-9]*.root.json`. -/
def rootJsonTail : List Char := ".root.json".data

/-- A name matches the glob pattern `[0-9]*.root.json`: one ASCII digit,
then any characters, then the literal `.root.json`. -/
def globRootMatch (s : String) : Bool :=
  match s.data with
  | [] => false
  | c :: rest => c.isDigit && rootJsonTail.isSuffixOf rest

/-! ## `sorted(..., reverse=True)` on names

Python compares strings lexicographically by code point; `reverse=True`
yields the descending order.  `listLt`/`strLt` model that comparison
directly (executably).  Since the globbed paths share the directory as a
common front segment, their relative order equals that of the bare
names, and a descending insertion sort models
`sorted(glob(...), reverse=True)` exactly (names in one directory are
pairwise distinct, so stability is irrelevant). -/

/-- Python `<` on strings as lists of code points. -/
def listLt : List Char → List Char → Bool
  | _, [] => false
  | [], _ :: _ => true
  | a :: as, b :: bs =>
    if a.toNat < b.toNat then true
    else if b.toNat < a.toNat then false
    else listLt as bs

/-- Python string `<` (lexicographic by code point). -/
def strLt (a b : String) : Bool := listLt a.data b.data

/-- Insert into a descending list, keeping it descending. -/
def insertDesc (s : String) : List String → List String
  | [] => [s]
  | t :: ts => if strLt t s then s :: t :: ts else t :: insertDesc s ts

/-- Descending (reverse-lexicographic) sort of names. -/
def sortDesc : List String → List String
  | [] => []
  | s :: ss => insertDesc s (sortDesc ss)

/-! ## Trusted-root resolution (`_SignatureVerification.trusted_root`) -/

/-- The `for path in sorted(glob(...), reverse=True)` loop: the first name
in descending order whose stem parses as an `int` is loaded (`break`);
names whose stem does not parse are skipped; when none parses the loop
falls through to its `else`. -/
def selectRootFile (files : List String) : Option String :=
  (sortDesc (files.filter globRootMatch)).find? (fun s => pyIntOk (stemBeforeDot s))

/-- The candidate the refresh loop starts from: the selected on-disk root
file, or `INITIAL_TRUST_ROOT` when no name is selected. -/
def startCandidate (env : Env) : RootDoc :=
  match selectRootFile env.files with
  | some name => env.loadRootFile name
  | none => env.initialTrustRoot

/-- Result of the refresh loop: the final `trusted` document, the
`(version-label, document)` pairs passed to `write_metadata_to_file` in
call order, and the number of fetch attempts issued. -/
structure RefreshResult where
  trusted : RootDoc
  writes : List (Nat × RootDoc)
  fetches : Nat
deriving DecidableEq, Repr

/-- The `while more_signatures` loop of `trusted_root`, with fuel.  Each
iteration fetches `<trusted.version+1>.root.json`; on a 404, another HTTP
error, any other fetch exception, or a `verify_root` failure the loop
stops keeping `trusted`; on success the fetched document becomes
`trusted` and is persisted under the precomputed version label.  All
exception paths are caught inside the loop, so the function is total. -/
def refreshRoot (env : Env) : Nat → RootDoc → RefreshResult
  | 0, t => ⟨t, [], 0⟩
  | fuel + 1, t =>
    let v := t.version + 1
    match env.fetchRoot v with
    | .ok d =>
      if env.verifyRoot t d then
        let r := refreshRoot env fuel d
        ⟨r.trusted, (v, d) :: r.writes, r.fetches + 1⟩
      else ⟨t, [], 1⟩
    | _ => ⟨t, [], 1⟩

/-- The `trusted_root` property: select the on-disk starting candidate, then run the
refresh loop.  Always returns a document — never `None`. -/
def trusted_root (env : Env) (fuel : Nat) : RefreshResult :=
  refreshRoot env fuel (startCandidate env)

/-- The refresh loop stops at `t`: fetching `<t.version+1>.root.json`
gives a 404, another HTTP error or another exception, or the fetched
document fails `verify_root` against `t`. -/
def stopsAt (env : Env) (t : RootDoc) : Bool :=
  match env.fetchRoot (t.version + 1) with
  | .ok d => !env.verifyRoot t d
  | _ => true

/-! ## Key-manager resolution (`_SignatureVerification.key_mgr`) -/

/-- Result of `key_mgr`: the returned document (`none` = Python `None`)
and the document written to the on-disk cache, when one is written. -/
structure KeyMgrResult where
  result : Option KeyMgrDoc
  wrote : Option KeyMgrDoc
deriving DecidableEq, Repr

/-- The `key_mgr` property: fetch `key_mgr.json`; on success verify the `key_mgr`
delegation against the trusted root, persist and return the fetched
document.  A `ConnectionError`/`HTTPError` is logged and falls through
to the disk fallback: the previously persisted copy is returned verbatim
(no re-verification) when it exists, else `None`.  Any other exception —
a `SignatureError` out of `verify_delegation`, or the `ValueError` a
non-JSON body raises in the fetch — hits the bare `raise` of the
`except Exception` arm and propagates (`.error`).  (Metadata documents
are non-empty mappings, so the source's `not trusted` test is `is None`
here.) -/
def key_mgr (env : Env) (root : RootDoc) : Except Unit KeyMgrResult :=
  match env.fetchKeyMgr with
  | .ok u =>
    if env.verifyKeyMgrDeleg u root then .ok ⟨some u, some u⟩
    else .error ()
  | .connHttpError => .ok ⟨env.diskKeyMgr, none⟩
  | .raised => .error ()

/-! ## The enablement gate (`_SignatureVerification.enabled`) -/

/-- The configuration values `enabled` reads from `context`. -/
structure Config where
  extra_safety_checks : Bool
  signing_metadata_url_base : Option String
  conda_content_trust_available : Bool
deriving DecidableEq, Repr

/-- Python truthiness of `context.signing_metadata_url_base`: unset
(`None`) and the empty string are both falsy. -/
def pyTruthyStrOpt : Option String → Bool
  | none => false
  | some s => !s.isEmpty

/-- Why `enabled` returned `False`, one constructor per early return. -/
inductive DisableReason
  | safetyOff
  | noUrlBase
  | noCct
  | noRoot
  | noKeyMgr
deriving DecidableEq, Repr

/-- The value `enabled` tests with `if self.trusted_root is None`.  The
property returns the loop's `trusted`, which is a document in every
branch, so this is always `some`. -/
def trusted_rootOpt (env : Env) (fuel : Nat) : Option RootDoc :=
  some (trusted_root env fuel).trusted

/-- The `enabled` property, with the reason for a `False` result made explicit:
`.ok none` = `True`; `.ok (some r)` = `False` via the early return `r`;
`.error` = an exception propagated out of `key_mgr`. -/
def enabledCheck (cfg : Config) (env : Env) (fuel : Nat) :
    Except Unit (Option DisableReason) :=
  if !cfg.extra_safety_checks then .ok (some .safetyOff)
  else if !(pyTruthyStrOpt cfg.signing_metadata_url_base) then .ok (some .noUrlBase)
  else if !cfg.conda_content_trust_available then .ok (some .noCct)
  else
    match trusted_rootOpt env fuel with
    | none => .ok (some .noRoot)
    | some root =>
      match key_mgr env root with
      | .error e => .error e
      | .ok r =>
        match r.result with
        | none => .ok (some .noKeyMgr)
        | some _ => .ok none

/-- The `enabled` property as the caller sees it: `True` iff no early return fired. -/
def enabled (cfg : Config) (env : Env) (fuel : Nat) : Except Unit Bool :=
  (enabledCheck cfg env fuel).map Option.isNone

/-- Does `enabledCheck` disable via the `trusted_root is None` branch? -/
def isNoRootDisable : Except Unit (Option DisableReason) → Bool
  | .ok (some .noRoot) => true
  | _ => false

/-! ## Artifact verification (`_SignatureVerification.__call__`) -/

/-- Package metadata (`info`): a string-keyed record, looked up and
updated pointwise. -/
def Metadata := String → Option String

/-- Write one key of a metadata record. -/
def setKey (m : Metadata) (k v : String) : Metadata :=
  fun k' => if k' = k then some v else m k'

/-- Outcome of `verify_delegation("pkg_mgr", envelope, key_mgr)`:
returns, raises `SignatureError`, or raises anything else. -/
inductive DelegOutcome
  | verified
  | sigError
  | raised
deriving DecidableEq, Repr

def metadata_signature_status : String := "metadata_signature_status"

def statusTrusted : String :=
  "(INFO: package metadata is signed by Anaconda and trusted)"

def statusFailed : String :=
  "(WARNING: metadata signature verification failed)"

/-- The `__call__(info, fn, signatures)` method: no-op unless the gate is enabled
and `fn` has a signature entry; otherwise the envelope built from `info`
and `signatures[fn]` is checked against the key manager, a
`SignatureError` sets the warning status, success sets the trusted
status, and any other exception propagates before `info` is touched.
`verifyPkgMgr` is the behaviour of `verify_delegation("pkg_mgr", ...)`
on the envelope `wrap_as_signable(info)` + `signatures[fn]`. -/
def signatureCall (enabledFlag : Bool) (keyMgr : Option KeyMgrDoc)
    (verifyPkgMgr : Metadata → String → Option KeyMgrDoc → DelegOutcome)
    (info : Metadata) (fn : String) (signatures : String → Option String) :
    Except Unit Metadata :=
  if !enabledFlag then .ok info
  else
    match signatures fn with
    | none => .ok info
    | some sigEntry =>
      match verifyPkgMgr info sigEntry keyMgr with
      | .sigError => .ok (setKey info metadata_signature_status statusFailed)
      | .verified => .ok (setKey info metadata_signature_status statusTrusted)
      | .raised => .error ()

/-! ## The `lru_cache` memoization layer

`enabled`, `trusted_root` and `key_mgr` are properties of the process
singleton, each under `@lru_cache`: the first call computes and stores
the value, later calls return it without re-executing the body; a call
that raises stores nothing.  The cache is threaded explicitly, and each
call reports its externally visible effects. -/

/-- The memo cells of the singleton.  `keyMgrC` stores an `Option`
because `lru_cache` also caches a `None` result. -/
structure TrustCache where
  enabledC : Option Bool
  rootC : Option RootDoc
  keyMgrC : Option (Option KeyMgrDoc)
deriving DecidableEq, Repr

/-- Externally visible work: network fetch attempts, directory scans,
file writes. -/
structure Effects where
  fetches : Nat
  scans : Nat
  writes : Nat
deriving DecidableEq, Repr

def Effects.zero : Effects := ⟨0, 0, 0⟩

def Effects.add (a b : Effects) : Effects :=
  ⟨a.fetches + b.fetches, a.scans + b.scans, a.writes + b.writes⟩

/-- Reading `self.trusted_root` through its `lru_cache`: a hit returns the cell
with no effects; a miss scans the directory once, runs the refresh loop
and stores the result. -/
def trustedRootCall (env : Env) (fuel : Nat) (c : TrustCache) :
    RootDoc × TrustCache × Effects :=
  match c.rootC with
  | some r => (r, c, Effects.zero)
  | none =>
    let r := trusted_root env fuel
    (r.trusted, { c with rootC := some r.trusted },
      ⟨r.fetches, 1, r.writes.length⟩)

/-- Reading `self.key_mgr` through its `lru_cache`.  The body reads
`self.trusted_root` (a memoized call), issues one fetch attempt, and
writes the cache file on success; a raising body caches nothing. -/
def keyMgrCall (env : Env) (fuel : Nat) (c : TrustCache) :
    Except Unit (Option KeyMgrDoc) × TrustCache × Effects :=
  match c.keyMgrC with
  | some k => (.ok k, c, Effects.zero)
  | none =>
    match key_mgr env (trustedRootCall env fuel c).1 with
    | .error _ =>
      (.error (), (trustedRootCall env fuel c).2.1,
        ((trustedRootCall env fuel c).2.2).add ⟨1, 0, 0⟩)
    | .ok r =>
      (.ok r.result,
        { (trustedRootCall env fuel c).2.1 with keyMgrC := some r.result },
        ((trustedRootCall env fuel c).2.2).add
          ⟨1, 0, if r.wrote.isSome then 1 else 0⟩)

/-- Reading `self.enabled` through its `lru_cache`: the body runs the config
checks, then `self.trusted_root` and `self.key_mgr` (both memoized), and
the result is cached unless `key_mgr` raised. -/
def enabledCall (cfg : Config) (env : Env) (fuel : Nat) (c : TrustCache) :
    Except Unit Bool × TrustCache × Effects :=
  match c.enabledC with
  | some b => (.ok b, c, Effects.zero)
  | none =>
    if !cfg.extra_safety_checks then
      (.ok false, { c with enabledC := some false }, Effects.zero)
    else if !(pyTruthyStrOpt cfg.signing_metadata_url_base) then
      (.ok false, { c with enabledC := some false }, Effects.zero)
    else if !cfg.conda_content_trust_available then
      (.ok false, { c with enabledC := some false }, Effects.zero)
    else
      match (keyMgrCall env fuel (trustedRootCall env fuel c).2.1).1 with
      | .error _ =>
        (.error (),
          (keyMgrCall env fuel (trustedRootCall env fuel c).2.1).2.1,
          ((trustedRootCall env fuel c).2.2).add
            ((keyMgrCall env fuel (trustedRootCall env fuel c).2.1).2.2))
      | .ok none =>
        (.ok false,
          { (keyMgrCall env fuel (trustedRootCall env fuel c).2.1).2.1 with
            enabledC := some false },
          ((trustedRootCall env fuel c).2.2).add
            ((keyMgrCall env fuel (trustedRootCall env fuel c).2.1).2.2))
      | .ok (some _) =>
        (.ok true,
          { (keyMgrCall env fuel (trustedRootCall env fuel c).2.1).2.1 with
            enabledC := some true },
          ((trustedRootCall env fuel c).2.2).add
            ((keyMgrCall env fuel (trustedRootCall env fuel c).2.1).2.2))

/-! ## Order facts about the code-point comparison -/

theorem char_eq_of_toNat_eq {a b : Char} (h : a.toNat = b.toNat) : a = b :=
  Char.eq_of_val_eq (UInt32.ext h)

theorem listLt_irrefl : ∀ a : List Char, listLt a a = false := by
  intro a
  induction a with
  | nil => rfl
  | cons x xs ih => simp [listLt, ih]

theorem listLt_trans : ∀ a b c : List Char,
    listLt a b = true → listLt b c = true → listLt a c = true := by
  intro a
  induction a with
  | nil =>
    intro b c hab hbc
    cases b with
    | nil => simp [listLt] at hab
    | cons y ys =>
      cases c with
      | nil => simp [listLt] at hbc
      | cons z zs => simp [listLt]
  | cons x xs ih =>
    intro b c hab hbc
    cases b with
    | nil => simp [listLt] at hab
    | cons y ys =>
      cases c with
      | nil => simp [listLt] at hbc
      | cons z zs =>
        simp only [listLt] at hab hbc ⊢
        rcases Nat.lt_trichotomy x.toNat y.toNat with h1 | h1 | h1
        · rcases Nat.lt_trichotomy y.toNat z.toNat with h2 | h2 | h2
          · simp [show x.toNat < z.toNat by omega]
          · simp [show x.toNat < z.toNat by omega]
          · rw [if_neg (by omega), if_pos (by omega)] at hbc
            exact absurd hbc (by simp)
        · rw [if_neg (by omega), if_neg (by omega)] at hab
          rcases Nat.lt_trichotomy y.toNat z.toNat with h2 | h2 | h2
          · simp [show x.toNat < z.toNat by omega]
          · rw [if_neg (by omega), if_neg (by omega)] at hbc
            rw [if_neg (by omega), if_neg (by omega)]
            exact ih ys zs hab hbc
          · rw [if_neg (by omega), if_pos (by omega)] at hbc
            exact absurd hbc (by simp)
        · rw [if_neg (by omega), if_pos (by omega)] at hab
          exact absurd hab (by simp)

theorem listLt_asymm {a b : List Char} (hab : listLt a b = true) :
    listLt b a = false := by
  cases hba : listLt b a with
  | false => rfl
  | true =>
    have h := listLt_trans a b a hab hba
    rw [listLt_irrefl] at h
    exact absurd h (by simp)

theorem listLt_eq_of_not_lt : ∀ a b : List Char,
    listLt a b = false → listLt b a = false → a = b := by
  intro a
  induction a with
  | nil =>
    intro b hab _
    cases b with
    | nil => rfl
    | cons y ys => simp [listLt] at hab
  | cons x xs ih =>
    intro b hab hba
    cases b with
    | nil => simp [listLt] at hba
    | cons y ys =>
      simp only [listLt] at hab hba
      rcases Nat.lt_trichotomy x.toNat y.toNat with h1 | h1 | h1
      · rw [if_pos h1] at hab
        exact absurd hab (by simp)
      · rw [if_neg (by omega), if_neg (by omega)] at hab
        rw [if_neg (by omega), if_neg (by omega)] at hba
        rw [char_eq_of_toNat_eq h1, ih ys hab hba]
      · rw [if_pos (by omega)] at hba
        exact absurd hba (by simp)

theorem strLt_trans {a b c : String} (h1 : strLt a b = true)
    (h2 : strLt b c = true) : strLt a c = true :=
  listLt_trans _ _ _ h1 h2

theorem strLt_asymm {a b : String} (h : strLt a b = true) : strLt b a = false :=
  listLt_asymm h

theorem strLt_irrefl (a : String) : strLt a a = false :=
  listLt_irrefl _

theorem strLt_eq_of_not_lt {a b : String} (hab : strLt a b = false)
    (hba : strLt b a = false) : a = b := by
  have h := listLt_eq_of_not_lt a.data b.data hab hba
  cases a; cases b
  exact congrArg String.mk h

/-! ## The descending sort is a permutation and is sorted -/

theorem mem_insertDesc {x s : String} : ∀ {l : List String},
    x ∈ insertDesc s l ↔ x = s ∨ x ∈ l := by
  intro l
  induction l with
  | nil => simp [insertDesc]
  | cons t ts ih =>
    cases h : strLt t s with
    | true => simp [insertDesc, h, List.mem_cons]
    | false =>
      simp only [insertDesc, h, Bool.false_eq_true, if_false, List.mem_cons, ih]
      tauto

theorem pairwise_insertDesc {s : String} : ∀ {l : List String},
    l.Pairwise (fun a b => strLt a b = false) →
    (insertDesc s l).Pairwise (fun a b => strLt a b = false) := by
  intro l
  induction l with
  | nil => intro _; simp [insertDesc]
  | cons t ts ih =>
    intro h
    rcases List.pairwise_cons.mp h with ⟨ht, hts⟩
    cases hc : strLt t s with
    | true =>
      simp only [insertDesc, hc, if_true]
      refine List.pairwise_cons.mpr ⟨?_, h⟩
      intro u hu
      rcases List.mem_cons.mp hu with rfl | hu'
      · exact strLt_asymm hc
      · cases hsu : strLt s u with
        | false => rfl
        | true =>
          have htu := strLt_trans hc hsu
          rw [ht u hu'] at htu
          exact absurd htu (by simp)
    | false =>
      simp only [insertDesc, hc, Bool.false_eq_true, if_false]
      refine List.pairwise_cons.mpr ⟨?_, ih hts⟩
      intro u hu
      rcases mem_insertDesc.mp hu with rfl | hu'
      · exact hc
      · exact ht u hu'

theorem mem_sortDesc {x : String} : ∀ {l : List String},
    x ∈ sortDesc l ↔ x ∈ l := by
  intro l
  induction l with
  | nil => simp [sortDesc]
  | cons s ss ih => simp [sortDesc, mem_insertDesc, ih]

theorem pairwise_sortDesc : ∀ l : List String,
    (sortDesc l).Pairwise (fun a b => strLt a b = false) := by
  intro l
  induction l with
  | nil => simp [sortDesc]
  | cons s ss ih => exact pairwise_insertDesc ih

/-- On a descending list, `find?` returns a maximal element among those
satisfying the predicate: nothing later (hence nothing eligible) is
strictly greater. -/
theorem find?_pairwise_max {p : String → Bool} : ∀ {L : List String} {m : String},
    L.Pairwise (fun a b => strLt a b = false) →
    L.find? p = some m →
    ∀ x ∈ L, p x = true → strLt m x = false := by
  intro L
  induction L with
  | nil => intro m _ h; simp at h
  | cons a t ih =>
    intro m hp hf x hx hpx
    rcases List.pairwise_cons.mp hp with ⟨ha, ht⟩
    cases hpa : p a with
    | true =>
      rw [List.find?_cons_of_pos _ hpa] at hf
      obtain rfl := Option.some.inj hf
      rcases List.mem_cons.mp hx with rfl | hxt
      · exact strLt_irrefl _
      · exact ha x hxt
    | false =>
      rw [List.find?_cons_of_neg _ (by simp [hpa])] at hf
      rcases List.mem_cons.mp hx with rfl | hxt
      · rw [hpa] at hpx
        exact absurd hpx (by simp)
      · exact ih ht hf x hxt hpx

/-! ## Claim C2: selection of the on-disk starting candidate -/

/-- C2 (amended): among the files of the verification directory matching
`[0-9]*.root.json` whose integer prefix parses, `trusted_root` selects as
its starting candidate the LEXICOGRAPHICALLY greatest name (Python sorts
the glob results as strings, `reverse=True`), skipping names whose prefix
does not parse as an `int`; when no such file exists it starts from the
embedded bootstrap root. -/
theorem selectRootFile_spec (env : Env) :
    (∀ m, selectRootFile env.files = some m →
      m ∈ env.files ∧ globRootMatch m = true ∧
      pyIntOk (stemBeforeDot m) = true ∧
      (∀ s ∈ env.files, globRootMatch s = true →
        pyIntOk (stemBeforeDot s) = true → strLt m s = false) ∧
      startCandidate env = env.loadRootFile m) ∧
    (selectRootFile env.files = none →
      startCandidate env = env.initialTrustRoot) := by
  constructor
  · intro m hm
    have hm' : (sortDesc (env.files.filter globRootMatch)).find?
        (fun s => pyIntOk (stemBeforeDot s)) = some m := hm
    have hmem : m ∈ sortDesc (env.files.filter globRootMatch) :=
      List.mem_of_find?_eq_some hm'
    have hmem' : m ∈ env.files.filter globRootMatch := mem_sortDesc.mp hmem
    have hmf := List.mem_filter.mp hmem'
    have hpm : pyIntOk (stemBeforeDot m) = true := by
      have h := @List.find?_some String (fun s => pyIntOk (stemBeforeDot s)) m _ hm'
      simpa using h
    refine ⟨hmf.1, hmf.2, hpm, ?_, ?_⟩
    · intro s hs hmatch hok
      have hsmem : s ∈ sortDesc (env.files.filter globRootMatch) :=
        mem_sortDesc.mpr (List.mem_filter.mpr ⟨hs, hmatch⟩)
      exact find?_pairwise_max (pairwise_sortDesc _) hm s hsmem hok
    · unfold startCandidate
      rw [hm]
  · intro hn
    unfold startCandidate
    rw [hn]

/-- C2 witness: a concrete directory with a valid, an unparseable and a
non-matching name; the characterization applies with every hypothesis
discharged by evaluation. -/
theorem selectRootFile_spec_witness :
    "9.root.json" ∈ ["2.root.json", "9.root.json", "x_.root.json", "other"] ∧
    globRootMatch "9.root.json" = true ∧
    pyIntOk (stemBeforeDot "9.root.json") = true ∧
    (∀ s ∈ ["2.root.json", "9.root.json", "x_.root.json", "other"],
      globRootMatch s = true → pyIntOk (stemBeforeDot s) = true →
      strLt "9.root.json" s = false) ∧
    startCandidate
      { files := ["2.root.json", "9.root.json", "x_.root.json", "other"],
        loadRootFile := fun _ => ⟨9, 0⟩, initialTrustRoot := ⟨1, 0⟩,
        fetchRoot := fun _ => .http404, verifyRoot := fun _ _ => true,
        fetchKeyMgr := .connHttpError, verifyKeyMgrDeleg := fun _ _ => true,
        diskKeyMgr := none } =
      (fun _ => (⟨9, 0⟩ : RootDoc)) "9.root.json" :=
  (selectRootFile_spec
    { files := ["2.root.json", "9.root.json", "x_.root.json", "other"],
      loadRootFile := fun _ => ⟨9, 0⟩, initialTrustRoot := ⟨1, 0⟩,
      fetchRoot := fun _ => .http404, verifyRoot := fun _ _ => true,
      fetchKeyMgr := .connHttpError, verifyKeyMgrDeleg := fun _ _ => true,
      diskKeyMgr := none }).1 "9.root.json" (by decide)

/-- C2 counterexample: with `10.root.json` and `9.root.json` both on
disk, the code selects `9.root.json` (reverse LEXICOGRAPHIC string
order), not the numerically greatest prefix 10 — refuting strict integer
ordering. -/
theorem selectRootFile_not_numeric :
    selectRootFile ["10.root.json", "9.root.json"] = some "9.root.json" ∧
    globRootMatch "10.root.json" = true ∧
    pyIntVal (stemBeforeDot "10.root.json") = some 10 ∧
    pyIntVal (stemBeforeDot "9.root.json") = some 9 ∧
    (9 : Int) < 10 := by
  refine ⟨by decide, by decide, by decide, by decide, by decide⟩

/-! ## The refresh loop on a finite verifying chain -/

theorem refreshRoot_stop {env : Env} {t : RootDoc} (h : stopsAt env t = true) :
    ∀ {fuel : Nat}, 1 ≤ fuel → refreshRoot env fuel t = ⟨t, [], 1⟩ := by
  intro fuel hf
  match fuel, hf with
  | fuel + 1, _ =>
    unfold stopsAt at h
    unfold refreshRoot
    cases hfetch : env.fetchRoot (t.version + 1) with
    | ok d =>
      rw [hfetch] at h
      simp only [Bool.not_eq_true'] at h
      simp [hfetch, h]
    | http404 => simp [hfetch]
    | httpError => simp [hfetch]
    | raised => simp [hfetch]

/-- The loop on a chain `chain 0, ..., chain k` where every step fetches
and verifies, stopping after `chain k`: the result is `chain k`, each
fetched document is persisted in order under the label
`predecessor.version + 1`, and `k + 1` fetches are issued. -/
theorem refreshRoot_chain (env : Env) :
    ∀ (k : Nat) (chain : Nat → RootDoc) (fuel : Nat),
      (∀ i, i < k → env.fetchRoot ((chain i).version + 1) = .ok (chain (i + 1)) ∧
        env.verifyRoot (chain i) (chain (i + 1)) = true) →
      stopsAt env (chain k) = true →
      k < fuel →
      refreshRoot env fuel (chain 0) =
        ⟨chain k,
         (List.range k).map (fun i => ((chain i).version + 1, chain (i + 1))),
         k + 1⟩ := by
  intro k
  induction k with
  | zero =>
    intro chain fuel _ hstop hf
    simpa using refreshRoot_stop hstop hf
  | succ k ih =>
    intro chain fuel hsteps hstop hf
    match fuel, hf with
    | fuel + 1, hf =>
      obtain ⟨hfetch, hverify⟩ := hsteps 0 (Nat.succ_pos k)
      have hrec' : refreshRoot env fuel (chain (0 + 1)) =
          ⟨chain (k + 1),
           (List.range k).map
             (fun i => ((chain (i + 1)).version + 1, chain (i + 1 + 1))),
           k + 1⟩ :=
        ih (fun i => chain (i + 1)) fuel
          (fun i hi => hsteps (i + 1) (Nat.succ_lt_succ hi)) hstop
          (Nat.lt_of_succ_lt_succ hf)
      unfold refreshRoot
      simp only [hfetch, hverify, if_true, hrec']
      rw [List.range_succ_eq_map, List.map_cons, List.map_map]
      rfl

/-! ## Claim C1: full resolution from an empty directory -/

/-- C1: with an empty verification directory and a remote chain
`chain 0 = INITIAL_TRUST_ROOT, chain 1, ..., chain k` of consecutive
versions, each fetch succeeding and each document verifying against its
predecessor, and the fetch of version `k+1` answering 404:
`trusted_root` returns `chain k` (version `v0 + k`), and persists exactly
the fetched documents in ascending version order
`v0+1, v0+2, ..., v0+k`, each of which passed `verify_root` against its
predecessor. -/
theorem trusted_root_resolves_chain (env : Env) (chain : Nat → RootDoc)
    (k fuel : Nat)
    (hempty : env.files = [])
    (hstart : chain 0 = env.initialTrustRoot)
    (hver : ∀ i, i ≤ k → (chain i).version = (chain 0).version + i)
    (hsteps : ∀ i, i < k →
      env.fetchRoot ((chain i).version + 1) = .ok (chain (i + 1)) ∧
      env.verifyRoot (chain i) (chain (i + 1)) = true)
    (hstop : env.fetchRoot ((chain k).version + 1) = .http404)
    (hfuel : k < fuel) :
    (trusted_root env fuel).trusted = chain k ∧
    (trusted_root env fuel).trusted.version = (chain 0).version + k ∧
    (trusted_root env fuel).writes =
      (List.range k).map (fun i => ((chain i).version + 1, chain (i + 1))) ∧
    (trusted_root env fuel).writes.map Prod.fst =
      List.range' ((chain 0).version + 1) k ∧
    List.Pairwise (· < ·) ((trusted_root env fuel).writes.map Prod.fst) ∧
    ∀ w ∈ (trusted_root env fuel).writes, ∃ i, i < k ∧
      w = ((chain i).version + 1, chain (i + 1)) ∧
      env.verifyRoot (chain i) w.2 = true := by
  have hsc : startCandidate env = chain 0 := by
    unfold startCandidate selectRootFile
    rw [hempty]
    simpa using hstart.symm
  have hstop' : stopsAt env (chain k) = true := by
    unfold stopsAt
    rw [hstop]
  have hres : trusted_root env fuel =
      ⟨chain k,
       (List.range k).map (fun i => ((chain i).version + 1, chain (i + 1))),
       k + 1⟩ := by
    unfold trusted_root
    rw [hsc]
    exact refreshRoot_chain env k chain fuel hsteps hstop' hfuel
  have hlabels : (trusted_root env fuel).writes.map Prod.fst =
      List.range' ((chain 0).version + 1) k := by
    rw [hres]
    simp only [List.map_map]
    rw [List.range'_eq_map_range]
    apply List.map_congr_left
    intro i hi
    have := hver i (Nat.le_of_lt (List.mem_range.mp hi))
    simp [Function.comp, this]
    omega
  refine ⟨by rw [hres], ?_, by rw [hres], hlabels, ?_, ?_⟩
  · rw [hres]
    exact hver k (Nat.le_refl k)
  · rw [hlabels]
    exact List.pairwise_lt_range' _ _
  · intro w hw
    rw [hres] at hw
    rcases List.mem_map.mp hw with ⟨i, hi, rfl⟩
    exact ⟨i, List.mem_range.mp hi, rfl, (hsteps i (List.mem_range.mp hi)).2⟩

/-- C1 witness: bootstrap version 1, remote versions 2 and 3 verifying in
turn, 404 at version 4 — resolution returns version 3 and writes the two
fetched documents in order. -/
theorem trusted_root_resolves_chain_witness :
    (trusted_root
      { files := [], loadRootFile := fun _ => ⟨0, 0⟩,
        initialTrustRoot := ⟨1, 11⟩,
        fetchRoot := fun v => if v = 2 then .ok ⟨2, 22⟩ else
          if v = 3 then .ok ⟨3, 33⟩ else .http404,
        verifyRoot := fun _ _ => true,
        fetchKeyMgr := .connHttpError, verifyKeyMgrDeleg := fun _ _ => true,
        diskKeyMgr := none } 5).trusted = (⟨3, 33⟩ : RootDoc) := by
  have h := trusted_root_resolves_chain
    { files := [], loadRootFile := fun _ => ⟨0, 0⟩,
      initialTrustRoot := ⟨1, 11⟩,
      fetchRoot := fun v => if v = 2 then .ok ⟨2, 22⟩ else
        if v = 3 then .ok ⟨3, 33⟩ else .http404,
      verifyRoot := fun _ _ => true,
      fetchKeyMgr := .connHttpError, verifyKeyMgrDeleg := fun _ _ => true,
      diskKeyMgr := none }
    (fun i => if i = 0 then ⟨1, 11⟩ else if i = 1 then ⟨2, 22⟩ else ⟨3, 33⟩)
    2 5 rfl rfl
    (by decide)
    (by decide)
    (by decide)
    (by decide)
  exact h.1

/-! ## Claim C3: degradation to the last verified version -/

/-- C3: after `j` verified steps from the starting candidate, if fetching
version `v0+j+1` fails (404, other HTTP error, other exception) or the
fetched document fails `verify_root`, resolution returns the document of
the preceding version (`chain j`, version `v0+j`), persists only the
files of versions `< v0+j+1`, and never adopts the unverified document;
every exception path is caught inside the loop, so `trusted_root` is a
total function of the environment (it never raises). -/
theorem trusted_root_halts_on_failure (env : Env) (chain : Nat → RootDoc)
    (j fuel : Nat)
    (hstart : chain 0 = startCandidate env)
    (hver : ∀ i, i ≤ j → (chain i).version = (chain 0).version + i)
    (hsteps : ∀ i, i < j →
      env.fetchRoot ((chain i).version + 1) = .ok (chain (i + 1)) ∧
      env.verifyRoot (chain i) (chain (i + 1)) = true)
    (hfail : env.fetchRoot ((chain j).version + 1) = .http404 ∨
             env.fetchRoot ((chain j).version + 1) = .httpError ∨
             env.fetchRoot ((chain j).version + 1) = .raised ∨
             (∃ d, env.fetchRoot ((chain j).version + 1) = .ok d ∧
               env.verifyRoot (chain j) d = false))
    (hfuel : j < fuel) :
    (trusted_root env fuel).trusted = chain j ∧
    (trusted_root env fuel).trusted.version = (chain 0).version + j ∧
    (trusted_root env fuel).writes =
      (List.range j).map (fun i => ((chain i).version + 1, chain (i + 1))) ∧
    (∀ w ∈ (trusted_root env fuel).writes, w.1 < (chain j).version + 1) := by
  have hstop : stopsAt env (chain j) = true := by
    unfold stopsAt
    rcases hfail with h | h | h | ⟨d, hd, hv⟩
    · rw [h]
    · rw [h]
    · rw [h]
    · rw [hd]
      simp [hv]
  have hres : trusted_root env fuel =
      ⟨chain j,
       (List.range j).map (fun i => ((chain i).version + 1, chain (i + 1))),
       j + 1⟩ := by
    unfold trusted_root
    rw [← hstart]
    exact refreshRoot_chain env j chain fuel hsteps hstop hfuel
  refine ⟨by rw [hres], by rw [hres]; exact hver j (Nat.le_refl j),
    by rw [hres], ?_⟩
  intro w hw
  rw [hres] at hw
  rcases List.mem_map.mp hw with ⟨i, hi, rfl⟩
  have hij := List.mem_range.mp hi
  have h1 := hver i (Nat.le_of_lt hij)
  have h2 := hver j (Nat.le_refl j)
  simp only [h1, h2]
  omega

/-- C3 witness: version 2 fetches and verifies, version 3 fetches but
fails verification — resolution returns version 2 and persists only the
version-2 file. -/
theorem trusted_root_halts_on_failure_witness :
    (trusted_root
      { files := [], loadRootFile := fun _ => ⟨0, 0⟩,
        initialTrustRoot := ⟨1, 11⟩,
        fetchRoot := fun v => if v = 2 then .ok ⟨2, 22⟩ else
          if v = 3 then .ok ⟨3, 99⟩ else .http404,
        verifyRoot := fun _ d => decide (d.payload ≠ 99),
        fetchKeyMgr := .connHttpError, verifyKeyMgrDeleg := fun _ _ => true,
        diskKeyMgr := none } 5).trusted = (⟨2, 22⟩ : RootDoc) ∧
    (trusted_root
      { files := [], loadRootFile := fun _ => ⟨0, 0⟩,
        initialTrustRoot := ⟨1, 11⟩,
        fetchRoot := fun v => if v = 2 then .ok ⟨2, 22⟩ else
          if v = 3 then .ok ⟨3, 99⟩ else .http404,
        verifyRoot := fun _ d => decide (d.payload ≠ 99),
        fetchKeyMgr := .connHttpError, verifyKeyMgrDeleg := fun _ _ => true,
        diskKeyMgr := none } 5).writes = [(2, ⟨2, 22⟩)] := by
  have h := trusted_root_halts_on_failure
    { files := [], loadRootFile := fun _ => ⟨0, 0⟩,
      initialTrustRoot := ⟨1, 11⟩,
      fetchRoot := fun v => if v = 2 then .ok ⟨2, 22⟩ else
        if v = 3 then .ok ⟨3, 99⟩ else .http404,
      verifyRoot := fun _ d => decide (d.payload ≠ 99),
      fetchKeyMgr := .connHttpError, verifyKeyMgrDeleg := fun _ _ => true,
      diskKeyMgr := none }
    (fun i => if i = 0 then ⟨1, 11⟩ else ⟨2, 22⟩)
    1 5 (by decide) (by decide) (by decide)
    (Or.inr (Or.inr (Or.inr ⟨⟨3, 99⟩, by decide, by decide⟩)))
    (by decide)
  exact ⟨h.1, by rw [h.2.2.1]; decide⟩

/-! ## Claim C9: root resolution never yields an absent result -/

/-- C9: for every directory state and every sequence of fetch and
verification outcomes, `trusted_root` yields a document (at minimum the
bootstrap root) — the value tested by `enabled` is always `some` — so
the disable branch taken when root resolution returns `None` is
unreachable: `enabledCheck` can never report `noRoot`. -/
theorem trusted_root_never_none (cfg : Config) (env : Env) (fuel : Nat) :
    (trusted_rootOpt env fuel).isSome = true ∧
    isNoRootDisable (enabledCheck cfg env fuel) = false := by
  refine ⟨rfl, ?_⟩
  unfold enabledCheck
  by_cases h1 : (!cfg.extra_safety_checks) = true
  · rw [if_pos h1]
    rfl
  · rw [if_neg h1]
    by_cases h2 : (!(pyTruthyStrOpt cfg.signing_metadata_url_base)) = true
    · rw [if_pos h2]
      rfl
    · rw [if_neg h2]
      by_cases h3 : (!cfg.conda_content_trust_available) = true
      · rw [if_pos h3]
        rfl
      · rw [if_neg h3]
        simp only [trusted_rootOpt]
        cases hk : key_mgr env (trusted_root env fuel).trusted with
        | error e => rfl
        | ok r =>
          obtain ⟨res, wr⟩ := r
          cases res with
          | none => rfl
          | some d => rfl

/-! ## Claim C4: the enablement gate -/

/-- C4: `enabled` returns `.ok false` — false, without raising — when
safety checks are disabled, when no signing URL base is configured (unset
or empty), when `conda_content_trust` is unavailable, when root
resolution yields no document (a branch that in fact cannot fire), or
when key-manager resolution returns absent; and it returns `.ok true`
only when every one of those checks passes. -/
theorem enabled_gate_cases (cfg : Config) (env : Env) (fuel : Nat) :
    (cfg.extra_safety_checks = false → enabled cfg env fuel = .ok false) ∧
    (pyTruthyStrOpt cfg.signing_metadata_url_base = false →
      enabled cfg env fuel = .ok false) ∧
    (cfg.conda_content_trust_available = false →
      enabled cfg env fuel = .ok false) ∧
    (trusted_rootOpt env fuel = none → enabled cfg env fuel = .ok false) ∧
    (∀ r, key_mgr env (trusted_root env fuel).trusted = .ok r →
      r.result = none → enabled cfg env fuel = .ok false) ∧
    (enabled cfg env fuel = .ok true →
      cfg.extra_safety_checks = true ∧
      pyTruthyStrOpt cfg.signing_metadata_url_base = true ∧
      cfg.conda_content_trust_available = true ∧
      ∃ r d, key_mgr env (trusted_root env fuel).trusted = .ok r ∧
        r.result = some d) := by
  refine ⟨?_, ?_, ?_, ?_, ?_, ?_⟩
  · intro h
    unfold enabled enabledCheck
    rw [if_pos (by simp [h])]
    rfl
  · intro h
    unfold enabled enabledCheck
    by_cases h1 : (!cfg.extra_safety_checks) = true
    · rw [if_pos h1]; rfl
    · rw [if_neg h1, if_pos (by simp [h])]; rfl
  · intro h
    unfold enabled enabledCheck
    by_cases h1 : (!cfg.extra_safety_checks) = true
    · rw [if_pos h1]; rfl
    · rw [if_neg h1]
      by_cases h2 : (!(pyTruthyStrOpt cfg.signing_metadata_url_base)) = true
      · rw [if_pos h2]; rfl
      · rw [if_neg h2, if_pos (by simp [h])]; rfl
  · intro h
    exact absurd h (by simp [trusted_rootOpt])
  · intro r hk hr
    unfold enabled enabledCheck
    by_cases h1 : (!cfg.extra_safety_checks) = true
    · rw [if_pos h1]; rfl
    · rw [if_neg h1]
      by_cases h2 : (!(pyTruthyStrOpt cfg.signing_metadata_url_base)) = true
      · rw [if_pos h2]; rfl
      · rw [if_neg h2]
        by_cases h3 : (!cfg.conda_content_trust_available) = true
        · rw [if_pos h3]; rfl
        · rw [if_neg h3]
          simp only [trusted_rootOpt]
          rw [hk]
          show Except.map Option.isNone
            (match r.result with
             | none => Except.ok (some DisableReason.noKeyMgr)
             | some _ => Except.ok none) = Except.ok false
          rw [hr]
          rfl
  · intro h
    unfold enabled enabledCheck at h
    by_cases h1 : (!cfg.extra_safety_checks) = true
    · rw [if_pos h1] at h
      exact absurd h (by simp [Except.map])
    · rw [if_neg h1] at h
      by_cases h2 : (!(pyTruthyStrOpt cfg.signing_metadata_url_base)) = true
      · rw [if_pos h2] at h
        exact absurd h (by simp [Except.map])
      · rw [if_neg h2] at h
        by_cases h3 : (!cfg.conda_content_trust_available) = true
        · rw [if_pos h3] at h
          exact absurd h (by simp [Except.map])
        · rw [if_neg h3] at h
          simp only [trusted_rootOpt] at h
          refine ⟨by revert h1; cases cfg.extra_safety_checks <;> decide,
            by revert h2; cases pyTruthyStrOpt cfg.signing_metadata_url_base <;> decide,
            by revert h3; cases cfg.conda_content_trust_available <;> decide, ?_⟩
          cases hk : key_mgr env (trusted_root env fuel).trusted with
          | error e =>
            rw [hk] at h
            exact absurd h (by simp [Except.map])
          | ok r =>
            rw [hk] at h
            have h' : Except.map Option.isNone
                (match r.result with
                 | none => Except.ok (some DisableReason.noKeyMgr)
                 | some _ => Except.ok none) = Except.ok true := h
            cases hr : r.result with
            | none =>
              rw [hr] at h'
              exact absurd h' (by simp [Except.map])
            | some d => exact ⟨r, d, rfl, hr⟩

/-- C4 witness: a configuration with safety checks disabled — the gate
reports false without raising. -/
theorem enabled_gate_cases_witness :
    enabled
      { extra_safety_checks := false, signing_metadata_url_base := none,
        conda_content_trust_available := false }
      { files := [], loadRootFile := fun _ => ⟨0, 0⟩,
        initialTrustRoot := ⟨1, 11⟩, fetchRoot := fun _ => .http404,
        verifyRoot := fun _ _ => true, fetchKeyMgr := .connHttpError,
        verifyKeyMgrDeleg := fun _ _ => true, diskKeyMgr := none } 1 =
      .ok false :=
  (enabled_gate_cases
    { extra_safety_checks := false, signing_metadata_url_base := none,
      conda_content_trust_available := false }
    { files := [], loadRootFile := fun _ => ⟨0, 0⟩,
      initialTrustRoot := ⟨1, 11⟩, fetchRoot := fun _ => .http404,
      verifyRoot := fun _ _ => true, fetchKeyMgr := .connHttpError,
      verifyKeyMgrDeleg := fun _ _ => true, diskKeyMgr := none } 1).1 rfl

/-! ## Claim C5: key-manager resolution -/

/-- C5: a successful fetch whose `key_mgr` delegation verifies against
the trusted root is persisted and returned; a `ConnectionError` or
`HTTPError` falls back to the on-disk copy — returned verbatim with no
re-verification and no write when it exists, absent when it does not;
a failed delegation check (`SignatureError`) or any other exception
(e.g. a non-JSON body) propagates to the caller. -/
theorem key_mgr_behaviour (env : Env) (root : RootDoc) :
    (∀ u, env.fetchKeyMgr = .ok u → env.verifyKeyMgrDeleg u root = true →
      key_mgr env root = .ok ⟨some u, some u⟩) ∧
    (env.fetchKeyMgr = .connHttpError →
      key_mgr env root = .ok ⟨env.diskKeyMgr, none⟩ ∧
      (∀ d, env.diskKeyMgr = some d → key_mgr env root = .ok ⟨some d, none⟩) ∧
      (env.diskKeyMgr = none → key_mgr env root = .ok ⟨none, none⟩)) ∧
    (∀ u, env.fetchKeyMgr = .ok u → env.verifyKeyMgrDeleg u root = false →
      key_mgr env root = .error ()) ∧
    (env.fetchKeyMgr = .raised → key_mgr env root = .error ()) := by
  refine ⟨?_, ?_, ?_, ?_⟩
  · intro u hf hv
    unfold key_mgr
    rw [hf]
    simp [hv]
  · intro hf
    have hbase : key_mgr env root = .ok ⟨env.diskKeyMgr, none⟩ := by
      unfold key_mgr
      rw [hf]
    refine ⟨hbase, ?_, ?_⟩
    · intro d hd
      rw [hbase, hd]
    · intro hd
      rw [hbase, hd]
  · intro u hf hv
    unfold key_mgr
    rw [hf]
    simp [hv]
  · intro hf
    unfold key_mgr
    rw [hf]

/-- C5 witness: a successful fetch whose delegation verifies — the
fetched document is returned and persisted. -/
theorem key_mgr_behaviour_witness :
    key_mgr
      { files := [], loadRootFile := fun _ => ⟨0, 0⟩,
        initialTrustRoot := ⟨1, 11⟩, fetchRoot := fun _ => .http404,
        verifyRoot := fun _ _ => true, fetchKeyMgr := .ok ⟨7⟩,
        verifyKeyMgrDeleg := fun _ _ => true, diskKeyMgr := none }
      ⟨1, 11⟩ = .ok ⟨some ⟨7⟩, some ⟨7⟩⟩ :=
  (key_mgr_behaviour
    { files := [], loadRootFile := fun _ => ⟨0, 0⟩,
      initialTrustRoot := ⟨1, 11⟩, fetchRoot := fun _ => .http404,
      verifyRoot := fun _ _ => true, fetchKeyMgr := .ok ⟨7⟩,
      verifyKeyMgrDeleg := fun _ _ => true, diskKeyMgr := none }
    ⟨1, 11⟩).1 ⟨7⟩ rfl rfl

/-! ## Claim C6: artifact verification outcomes -/

/-- C6: with the gate enabled and a signature entry for `fn`, a
successful `pkg_mgr` delegation check records the trusted status and a
`SignatureError` records the verification-failed status — both without
an exception; with the gate disabled, or no entry for `fn`, the metadata
is returned unchanged; any other exception out of the delegation check
propagates. -/
theorem signatureCall_behaviour (keyMgr : Option KeyMgrDoc)
    (verifyPkgMgr : Metadata → String → Option KeyMgrDoc → DelegOutcome)
    (info : Metadata) (fn : String) (signatures : String → Option String) :
    (∀ sigEntry, signatures fn = some sigEntry →
      verifyPkgMgr info sigEntry keyMgr = .verified →
      ∃ m, signatureCall true keyMgr verifyPkgMgr info fn signatures = .ok m ∧
        m metadata_signature_status = some statusTrusted) ∧
    (∀ sigEntry, signatures fn = some sigEntry →
      verifyPkgMgr info sigEntry keyMgr = .sigError →
      ∃ m, signatureCall true keyMgr verifyPkgMgr info fn signatures = .ok m ∧
        m metadata_signature_status = some statusFailed) ∧
    (signatureCall false keyMgr verifyPkgMgr info fn signatures = .ok info) ∧
    (signatures fn = none →
      signatureCall true keyMgr verifyPkgMgr info fn signatures = .ok info) ∧
    (∀ sigEntry, signatures fn = some sigEntry →
      verifyPkgMgr info sigEntry keyMgr = .raised →
      signatureCall true keyMgr verifyPkgMgr info fn signatures = .error ()) := by
  refine ⟨?_, ?_, ?_, ?_, ?_⟩
  · intro sigEntry hs hv
    refine ⟨setKey info metadata_signature_status statusTrusted, ?_, ?_⟩
    · unfold signatureCall
      simp only [hs, hv]
      rfl
    · simp [setKey]
  · intro sigEntry hs hv
    refine ⟨setKey info metadata_signature_status statusFailed, ?_, ?_⟩
    · unfold signatureCall
      simp only [hs, hv]
      rfl
    · simp [setKey]
  · rfl
  · intro hs
    unfold signatureCall
    rw [hs]
    rfl
  · intro sigEntry hs hv
    unfold signatureCall
    simp only [hs, hv]
    rfl

/-- C6 witness: enabled gate, an entry for `"foo.tar.bz2"`, successful
delegation — the trusted status string is recorded. -/
theorem signatureCall_behaviour_witness :
    ∃ m, signatureCall true (some ⟨7⟩) (fun _ _ _ => .verified)
      (fun _ => none) "foo.tar.bz2"
      (fun f => if f = "foo.tar.bz2" then some "sig" else none) = .ok m ∧
      m metadata_signature_status = some statusTrusted :=
  (signatureCall_behaviour (some ⟨7⟩) (fun _ _ _ => .verified)
    (fun _ => none) "foo.tar.bz2"
    (fun f => if f = "foo.tar.bz2" then some "sig" else none)).1
    "sig" (by decide) rfl

/-! ## Claim C10: only the status key is written -/

/-- C10: whenever artifact verification does modify its metadata (gate
enabled, matching entry, delegation verified or `SignatureError`), the
only key written is `metadata_signature_status`; every other key keeps
its prior value. -/
theorem signatureCall_frame (keyMgr : Option KeyMgrDoc)
    (verifyPkgMgr : Metadata → String → Option KeyMgrDoc → DelegOutcome)
    (info : Metadata) (fn : String) (signatures : String → Option String)
    (sigEntry : String) (m : Metadata)
    (hs : signatures fn = some sigEntry)
    (hv : verifyPkgMgr info sigEntry keyMgr = .verified ∨
      verifyPkgMgr info sigEntry keyMgr = .sigError)
    (hm : signatureCall true keyMgr verifyPkgMgr info fn signatures = .ok m) :
    ∀ k, k ≠ metadata_signature_status → m k = info k := by
  intro k hk
  unfold signatureCall at hm
  rcases hv with hv | hv <;>
    · simp only [hs, hv] at hm
      have hmm := (Except.ok.inj hm).symm
      rw [hmm]
      simp [setKey, hk]

/-- C10 witness: a record with a pre-existing key keeps it across a
successful verification that writes the status key. -/
theorem signatureCall_frame_witness :
    (setKey (fun k => if k = "name" then some "pkg" else none)
      metadata_signature_status statusTrusted) "name" =
      (fun k : String => if k = "name" then some "pkg" else none) "name" :=
  signatureCall_frame (some ⟨7⟩) (fun _ _ _ => .verified)
    (fun k => if k = "name" then some "pkg" else none) "foo.tar.bz2"
    (fun f => if f = "foo.tar.bz2" then some "sig" else none)
    "sig"
    (setKey (fun k => if k = "name" then some "pkg" else none)
      metadata_signature_status statusTrusted)
    (by decide) (Or.inl rfl) rfl "name" (by decide)

/-! ## Claim C8: memoization after first success -/

/-- C8: once a resolver call has succeeded, every later call on the
resulting cache returns the identical result, leaves the cache unchanged
and performs no network fetch, directory scan or disk write — for
`trusted_root`, `key_mgr` and `enabled` alike (an `lru_cache` hit). -/
theorem memoized_after_success (cfg : Config) (env : Env) (fuel : Nat)
    (c : TrustCache) :
    (∀ r c' e, trustedRootCall env fuel c = (r, c', e) →
      trustedRootCall env fuel c' = (r, c', Effects.zero)) ∧
    (∀ k c' e, keyMgrCall env fuel c = (.ok k, c', e) →
      keyMgrCall env fuel c' = (.ok k, c', Effects.zero)) ∧
    (∀ b c' e, enabledCall cfg env fuel c = (.ok b, c', e) →
      enabledCall cfg env fuel c' = (.ok b, c', Effects.zero)) := by
  refine ⟨?_, ?_, ?_⟩
  · intro r c' e h
    unfold trustedRootCall at h ⊢
    cases hc : c.rootC with
    | some r0 =>
      rw [hc] at h
      simp only [Prod.mk.injEq] at h
      obtain ⟨rfl, rfl, rfl⟩ := h
      rw [hc]
    | none =>
      rw [hc] at h
      simp only [Prod.mk.injEq] at h
      obtain ⟨rfl, rfl, rfl⟩ := h
      rfl
  · intro k c' e h
    unfold keyMgrCall at h ⊢
    cases hc : c.keyMgrC with
    | some k0 =>
      rw [hc] at h
      simp only [Prod.mk.injEq, Except.ok.injEq] at h
      obtain ⟨rfl, rfl, rfl⟩ := h
      rw [hc]
    | none =>
      rw [hc] at h
      cases hk : key_mgr env (trustedRootCall env fuel c).1 with
      | error u =>
        rw [hk] at h
        simp at h
      | ok kr =>
        rw [hk] at h
        simp only [Prod.mk.injEq, Except.ok.injEq] at h
        obtain ⟨rfl, rfl, rfl⟩ := h
        rfl
  · intro b c' e h
    unfold enabledCall at h ⊢
    cases hc : c.enabledC with
    | some b0 =>
      rw [hc] at h
      simp only [Prod.mk.injEq, Except.ok.injEq] at h
      obtain ⟨rfl, rfl, rfl⟩ := h
      rw [hc]
    | none =>
      rw [hc] at h
      by_cases h1 : (!cfg.extra_safety_checks) = true
      · rw [if_pos h1] at h
        simp only [Prod.mk.injEq, Except.ok.injEq] at h
        obtain ⟨rfl, rfl, rfl⟩ := h
        rfl
      · rw [if_neg h1] at h
        by_cases h2 : (!(pyTruthyStrOpt cfg.signing_metadata_url_base)) = true
        · rw [if_pos h2] at h
          simp only [Prod.mk.injEq, Except.ok.injEq] at h
          obtain ⟨rfl, rfl, rfl⟩ := h
          rfl
        · rw [if_neg h2] at h
          by_cases h3 : (!cfg.conda_content_trust_available) = true
          · rw [if_pos h3] at h
            simp only [Prod.mk.injEq, Except.ok.injEq] at h
            obtain ⟨rfl, rfl, rfl⟩ := h
            rfl
          · rw [if_neg h3] at h
            cases hk : (keyMgrCall env fuel (trustedRootCall env fuel c).2.1).1 with
            | error u =>
              rw [hk] at h
              simp at h
            | ok kres =>
              rw [hk] at h
              cases hkr : kres with
              | none =>
                rw [hkr] at h
                simp only [Prod.mk.injEq, Except.ok.injEq] at h
                obtain ⟨rfl, rfl, rfl⟩ := h
                rfl
              | some d =>
                rw [hkr] at h
                simp only [Prod.mk.injEq, Except.ok.injEq] at h
                obtain ⟨rfl, rfl, rfl⟩ := h
                rfl

/-- C8 witness: after a first (computing) `trusted_root` call, the second
call on the resulting cache is a pure cache hit with zero effects. -/
theorem memoized_after_success_witness :
    trustedRootCall
      { files := [], loadRootFile := fun _ => ⟨0, 0⟩,
        initialTrustRoot := ⟨1, 11⟩, fetchRoot := fun _ => .http404,
        verifyRoot := fun _ _ => true, fetchKeyMgr := .connHttpError,
        verifyKeyMgrDeleg := fun _ _ => true, diskKeyMgr := none } 1
      ⟨none, some ⟨1, 11⟩, none⟩ =
      (⟨1, 11⟩, ⟨none, some ⟨1, 11⟩, none⟩, Effects.zero) :=
  (memoized_after_success
    { extra_safety_checks := true, signing_metadata_url_base := some "u",
      conda_content_trust_available := true }
    { files := [], loadRootFile := fun _ => ⟨0, 0⟩,
      initialTrustRoot := ⟨1, 11⟩, fetchRoot := fun _ => .http404,
      verifyRoot := fun _ _ => true, fetchKeyMgr := .connHttpError,
      verifyKeyMgrDeleg := fun _ _ => true, diskKeyMgr := none } 1
    ⟨none, none, none⟩).1 ⟨1, 11⟩ ⟨none, some ⟨1, 11⟩, none⟩ ⟨1, 1, 0⟩ rfl

end CondaTrust
